import Mathlib

/-!
Verification development for the goblib cooperative task scheduler
(`gob_task.hpp` / `gob_task.cpp`, `gob_tree.hpp`, `gob_scene.hpp` / `gob_scene.cpp`).

The C++ data is embedded shallowly:

* a task's packed 32-bit status word is a `Nat`, with the bit constants of
  `Task::Status` and the bit manipulations of `Task::initialize / release /
  restart / kill / pause` and `Task::pump` translated literally;
* the intrusive left-child / right-sibling tree of `FamilyTree<T>` is the
  inductive `Fam` (constructor `node d l r`: `l` is the C++ `_left` first-child
  pointer, `r` the `_right` next-sibling pointer); pointer identity is replaced
  by a node id carried in the data record;
* hooks (`onInitialize`, `onRelease`, `onExecute`, `onReceive`) are modelled as
  the base-class defaults: `onExecute` / `onReceive` do nothing, and
  `onInitialize` / `onRelease` return a per-task constant Bool stored in the
  task record (`initR`, `relR`), which covers tasks whose hooks uniformly
  succeed or uniformly report "not yet done"; hook invocations are recorded in
  event traces.
-/

namespace Goblib

/-! ## Task status word (`Task::Status`, gob_task.hpp lines 60-71) -/

/-- Source `Status::Initialize` -/
def S_INIT : Nat := 0x00000001
/-- Source `Status::Release` -/
def S_REL : Nat := 0x00000002
/-- Source `Status::Restart` -/
def S_RESTART : Nat := 0x00000004
/-- Source `Status::Execute` -/
def S_EXEC : Nat := 0x00000010
/-- Source `Status::Pause` -/
def S_PAUSE : Nat := 0x80000000
/-- Source `Status::Kill` -/
def S_KILL : Nat := 0x40000000
/-- Source `Task::MASK_STATUS` = Initialize | Release | Restart | Execute -/
def MASK_STATUS : Nat := 0x00000017
/-- Source `Task::MASK_FLAG` = Pause | Kill -/
def MASK_FLAG : Nat := 0xC0000000

/-- Source `Task::isInitialize`: `(status & MASK_STATUS) == Initialize` -/
def isInitializeB (s : Nat) : Bool := (s &&& MASK_STATUS) == S_INIT
/-- Source `Task::isExecute` -/
def isExecuteB (s : Nat) : Bool := (s &&& MASK_STATUS) == S_EXEC
/-- Source `Task::isRelease` -/
def isReleaseB (s : Nat) : Bool := (s &&& MASK_STATUS) == S_REL
/-- Source `Task::isPause`: `status & Status::Pause` (truthiness of the bit) -/
def isPauseB (s : Nat) : Bool := (s &&& S_PAUSE) != 0
/-- Source `Task::isKill`: `status & Status::Kill` (truthiness of the bit) -/
def isKillB (s : Nat) : Bool := (s &&& S_KILL) != 0

/-- Source `Task::initialize()`: `_status = Status::Initialize` -/
def initializeS (_ : Nat) : Nat := S_INIT
/-- Source `Task::release()` status update: `_status = (_status & Kill) | Release`
(identical formula in `Task::_release` for descendants). -/
def releaseS (s : Nat) : Nat := (s &&& S_KILL) ||| S_REL
/-- Source `Task::restart()` status update: `_status = (_status & MASK_FLAG) | Restart` -/
def restartS (s : Nat) : Nat := (s &&& MASK_FLAG) ||| S_RESTART
/-- Source `Task::kill()` status update: `_status |= Kill` -/
def killS (s : Nat) : Nat := s ||| S_KILL
/-- Source `Task::pause(b)` status update:
`_status = b ? (_status | Pause) : (_status & ~Pause)` (`~Pause` on `uint32_t`
is `0x7FFFFFFF`). -/
def pauseS (b : Bool) (s : Nat) : Nat :=
  if b then s ||| S_PAUSE else s &&& 0x7FFFFFFF

/-- Hooks a `Task::pump` call can invoke. -/
inductive THook where
  | init : THook
  | rel : THook
  | exec : THook
deriving DecidableEq, Repr

/-- Source `Task::pump(delta)` (gob_task.cpp, embedded in gob_vector2d.hpp lines
449-479): returns the new status word and the list of hooks invoked, in
invocation order.  `rI` / `rR` are the values the `onInitialize` / `onRelease`
hooks return, `paused` is `isPause()` of the task.  The `Restart` case invokes
the release hook and, when it succeeds, clears to Initialize and falls through
into the `Initialize` case within the same call. -/
def taskPumpP (rI rR paused : Bool) (s : Nat) : Nat × List THook :=
  if isKillB s then (s, [])
  else if (s &&& MASK_STATUS) == S_EXEC then
    (s, if paused then [] else [THook.exec])
  else if (s &&& MASK_STATUS) == S_RESTART then
    if rR then
      if rI then ((((s &&& MASK_FLAG) ||| S_INIT) &&& MASK_FLAG) ||| S_EXEC,
                  [THook.rel, THook.init])
      else ((s &&& MASK_FLAG) ||| S_INIT, [THook.rel, THook.init])
    else (s, [THook.rel])
  else if (s &&& MASK_STATUS) == S_INIT then
    if rI then ((s &&& MASK_FLAG) ||| S_EXEC, [THook.init]) else (s, [THook.init])
  else if (s &&& MASK_STATUS) == S_REL then
    if rR then (S_KILL, [THook.rel]) else (s, [THook.rel])
  else (s, [])

/-- Status part of `Task::pump` (the hook-trace projection dropped). -/
def pumpS (rI rR : Bool) (s : Nat) : Nat := (taskPumpP rI rR false s).fst

/-- Status words reachable from a freshly constructed `Task`
(constructor sets `_status = Status::Initialize`) by the public status
operations and by `Task::pump` steps with arbitrary hook results. -/
inductive ReachableStatus : Nat → Prop where
  | start : ReachableStatus S_INIT
  | doInitialize {s : Nat} : ReachableStatus s → ReachableStatus (initializeS s)
  | doRelease {s : Nat} : ReachableStatus s → ReachableStatus (releaseS s)
  | doRestart {s : Nat} : ReachableStatus s → ReachableStatus (restartS s)
  | doKill {s : Nat} : ReachableStatus s → ReachableStatus (killS s)
  | doPause (b : Bool) {s : Nat} : ReachableStatus s → ReachableStatus (pauseS b s)
  | doPump (rI rR : Bool) {s : Nat} : ReachableStatus s → ReachableStatus (pumpS rI rR s)

/-- The finite set of status words actually reachable: one phase bit from
{Initialize, Release, Restart, Execute} combined with any subset of
{Pause, Kill}, together with the two phase-less words produced by a completed
Release pump (`_status = Status::Kill`) and its paused variant. -/
def goodStatusList : List Nat :=
  [0x00000001, 0x00000002, 0x00000004, 0x00000010,
   0x80000001, 0x80000002, 0x80000004, 0x80000010,
   0x40000001, 0x40000002, 0x40000004, 0x40000010,
   0xC0000001, 0xC0000002, 0xC0000004, 0xC0000010,
   0x40000000, 0xC0000000]

/-- "Exactly one phase bit is set": the phase part of the word is one of the
four `Task::Status` phase constants. -/
def onePhaseB (s : Nat) : Bool :=
  ((s &&& MASK_STATUS) == S_INIT) || ((s &&& MASK_STATUS) == S_REL) ||
  ((s &&& MASK_STATUS) == S_RESTART) || ((s &&& MASK_STATUS) == S_EXEC)

/-! ## The intrusive family tree (`FamilyTree<T>`, gob_tree.hpp)

A tree node of `TaskTree<Task>` / the scene layer.  Pointer identity is
replaced by `id` (`0` is reserved for the sentinel root).  `tag` is a
debug-only label and is not modelled.  `sceneId` and `owned` carry the
`SceneTask` extension (`_sceneId`, `_manager != nullptr`); for plain tasks
they stay `0` / `false`. -/
structure TaskData where
  id : Nat
  priority : Int
  status : Nat
  initR : Bool
  relR : Bool
  sceneId : Nat
  owned : Bool
deriving DecidableEq, Repr

/-- Left-child / right-sibling tree (`goblib::Node`): in `node d l r`, `l` is
the `_left` (first child) pointer and `r` the `_right` (next sibling)
pointer; `nil` is a null pointer. -/
inductive Fam where
  | nil : Fam
  | node (d : TaskData) (l r : Fam) : Fam
deriving DecidableEq, Repr

/-- Source `Task::operator<`: comparison by priority only. -/
def taskLt (a b : TaskData) : Bool := a.priority < b.priority

/-- Source `FamilyTree::_sort(node, sorted)`: insert a detached node (carrying its
child subtree `dl`) into the sibling chain `t`, walking the chain while the
current element's priority is `< node`'s and splicing the node in before the
first element that is not. -/
def insertSorted (d : TaskData) (dl : Fam) : Fam → Fam
  | Fam.nil => Fam.node d dl Fam.nil
  | Fam.node e el er =>
    if taskLt e d then Fam.node e el (insertSorted d dl er)
    else Fam.node d dl (Fam.node e el er)

/-- Loop body of `FamilyTree::sort(head)`: walk the chain `t`, inserting each
element into the accumulator chain `acc` with `_sort`. -/
def sortChain : Fam → Fam → Fam
  | Fam.nil, acc => acc
  | Fam.node d l r, acc => sortChain r (insertSorted d l acc)

/-- Source `FamilyTree::sort(head)`: insertion sort of a sibling chain. -/
def famSort (t : Fam) : Fam := sortChain t Fam.nil

/-- Source `Node::rightTail` splice: replace the null at the end of the right-spine
of the first chain by the second chain (`tail->_right = left`). -/
def appendChain : Fam → Fam → Fam
  | Fam.nil, t => t
  | Fam.node d l r, t => Fam.node d l (appendChain r t)

/-- Source `FamilyTree::insertNode(node, parent)`, effect on the parent's child
chain `f`: if the parent has no child the node becomes the child, otherwise
`node->_right = parent->_left; parent->_left = sort(node)`.  Nodes are
inserted fresh (the C++ callers insert nodes whose `_left` is null, and
`insertReservedNodes` clears `_left`/`_right` before inserting). -/
def insertTop (d : TaskData) : Fam → Fam
  | Fam.nil => Fam.node d Fam.nil Fam.nil
  | Fam.node e el er => famSort (Fam.node d Fam.nil (Fam.node e el er))

/-- Operation `insertNode` with the parent located by id inside the forest. -/
def insertUnder (d : TaskData) (pid : Nat) : Fam → Fam
  | Fam.nil => Fam.nil
  | Fam.node x l r =>
    if x.id = pid then Fam.node x (insertTop d l) r
    else Fam.node x (insertUnder d pid l) (insertUnder d pid r)

/-- Operation `insertNode(node, parent)` where parent id `0` stands for the sentinel
root (`parent == nullptr` in the C++). -/
def insertAt (d : TaskData) (pid : Nat) (f : Fam) : Fam :=
  if pid = 0 then insertTop d f else insertUnder d pid f

/-- Source `FamilyTree::removeNode_if(func, ptr)` (gob_tree.hpp lines 287-322):
post-order walk; children and siblings are processed first, then the
predicate is tested on the node itself.  A removed node with no children is
replaced by its processed sibling chain; one with no siblings by its
processed child chain; otherwise the child chain is appended to the tail of
the sibling chain and the whole spliced chain is sorted. -/
def removeIf (g : TaskData → Bool) : Fam → Fam
  | Fam.nil => Fam.nil
  | Fam.node d l r =>
    if g d then
      match removeIf g l with
      | Fam.nil => removeIf g r
      | Fam.node dl ll lr =>
        match removeIf g r with
        | Fam.nil => Fam.node dl ll lr
        | Fam.node dr rl rr =>
          famSort (appendChain (Fam.node dr rl rr) (Fam.node dl ll lr))
    else Fam.node d (removeIf g l) (removeIf g r)

/-- Source `FamilyTree::callback` visiting order (visit node, recurse into child
chain, continue to next sibling), as the list of visited ids. -/
def preorder : Fam → List Nat
  | Fam.nil => []
  | Fam.node d l r => d.id :: (preorder l ++ preorder r)

/-- Source `FamilyTree::size()`: number of registered nodes (root excluded); counts
every node of the forest below the root. -/
def sizeF : Fam → Nat
  | Fam.nil => 0
  | Fam.node _ l r => 1 + sizeF l + sizeF r

/-- Source `FamilyTree::exists(node)`: is a node with this id in the forest? -/
def memF (x : Nat) : Fam → Bool
  | Fam.nil => false
  | Fam.node d l r => (d.id == x) || memF x l || memF x r

/-- Status word of the node with id `x`, if present. -/
def statusOf (x : Nat) : Fam → Option Nat
  | Fam.nil => none
  | Fam.node d l r =>
    if d.id = x then some d.status
    else match statusOf x l with
         | some s => some s
         | none => statusOf x r

/-- Source `SceneTask::_manager != nullptr` of the node with id `x`, if present. -/
def ownedOf (x : Nat) : Fam → Option Bool
  | Fam.nil => none
  | Fam.node d l r =>
    if d.id = x then some d.owned
    else match ownedOf x l with
         | some b => some b
         | none => ownedOf x r

/-- Apply `g` to every node (used for the `includeChildren` recursion of
`Task::_release/_restart/_kill/_pause`, which applies the same status formula
to the whole child chain and every subtree below it). -/
def mapAll (g : TaskData → TaskData) : Fam → Fam
  | Fam.nil => Fam.nil
  | Fam.node d l r => Fam.node (g d) (mapAll g l) (mapAll g r)

/-- A public `Task` operation applied to the node with id `x`: update the
node itself with `g`, and when `incl` (the `includeChildren` flag) also every
node of its child subtree. -/
def applyAt (x : Nat) (g : TaskData → TaskData) (incl : Bool) : Fam → Fam
  | Fam.nil => Fam.nil
  | Fam.node d l r =>
    if d.id = x then Fam.node (g d) (if incl then mapAll g l else l) r
    else Fam.node d (applyAt x g incl l) (applyAt x g incl r)

/-- Chain of sibling priorities, left to right along the `_right` links. -/
def spine : Fam → List Int
  | Fam.nil => []
  | Fam.node d _ r => d.priority :: spine r

/-- Predicate: `p` is a lower bound of every element of the list. -/
def lbAll (p : Int) : List Int → Bool
  | [] => true
  | q :: t => decide (p ≤ q) && lbAll p t

/-- The list is ordered non-decreasingly. -/
def ndList : List Int → Bool
  | [] => true
  | q :: t => lbAll q t && ndList t

/-- The sibling chain starting at `t` is ordered by non-decreasing priority. -/
def sortedSpine (t : Fam) : Bool := ndList (spine t)

/-- Every node's child chain, everywhere in the chain `t`, is ordered by
non-decreasing priority (the chain `t` itself is judged by `sortedSpine`). -/
def goodF : Fam → Bool
  | Fam.nil => true
  | Fam.node _ l r => sortedSpine l && goodF l && goodF r

/-- List-level image of `insertSorted` on the priority spine. -/
def linsert (p : Int) : List Int → List Int
  | [] => [p]
  | q :: t => if q < p then q :: linsert p t else p :: q :: t

/-- Every node of `t` satisfying the removal predicate has no children
(the condition under which `removeNode_if` never splices a child chain into
a sibling chain). -/
def leafPred (g : TaskData → Bool) : Fam → Bool
  | Fam.nil => true
  | Fam.node d l r =>
    (!(g d) || (l == Fam.nil)) && leafPred g l && leafPred g r

/-! ## Task-level operations on tree nodes -/

/-- Source `Task::Task(pri, tag)`: a fresh task starts with
`_status = Status::Initialize`. -/
def mkTask (id : Nat) (pri : Int) (rI rR : Bool) : TaskData :=
  { id := id, priority := pri, status := S_INIT, initR := rI, relR := rR,
    sceneId := 0, owned := false }

/-- Status update of `Task::release` on one node. -/
def releaseTask (d : TaskData) : TaskData := { d with status := releaseS d.status }
/-- Status update of `Task::pause(b)` on one node. -/
def pauseTask (b : Bool) (d : TaskData) : TaskData := { d with status := pauseS b d.status }
/-- One `Task::pump(delta)` state step for a node (hook results are the
node's stored constants; `isPause()` is read from its own status). -/
def pumpTask (d : TaskData) : TaskData :=
  { d with status := (taskPumpP d.initR d.relR (isPauseB d.status) d.status).fst }
/-- Hooks one `Task::pump(delta)` call invokes on a node. -/
def pumpTaskEvs (d : TaskData) : List THook :=
  (taskPumpP d.initR d.relR (isPauseB d.status) d.status).snd
/-- Predicate `is_kill`, the reap predicate of `TaskTree::pump`. -/
def isKillD (d : TaskData) : Bool := isKillB d.status

/-! ## The scheduler (`TaskTree<T>`, gob_task.hpp) -/

/-- State of a `TaskTree<Task>`: the forest below the sentinel root, the
root task itself (`Task(128, "dc")`, default hooks returning true), the
reservation side list (pairs of node and intended-parent id, drained
head-first; `reserveInsertNode` appends at `rightTail`), the two message
queues (`(msg, target id)` pairs in FIFO order) and the global pause flag. -/
structure TreeState where
  forest : Fam
  rootTask : TaskData
  reserve : List (TaskData × Nat)
  msgs : List (Nat × Nat)
  bmsgs : List (Nat × Nat)
  pauseG : Bool
deriving DecidableEq, Repr

/-- A `TaskTree` as freshly constructed: empty forest, empty queues. -/
def emptyTree : TreeState :=
  { forest := Fam.nil,
    rootTask := { id := 0, priority := 128, status := S_INIT, initR := true,
                  relR := true, sceneId := 0, owned := false },
    reserve := [], msgs := [], bmsgs := [], pauseG := false }

/-- Source `FamilyTree::reserveInsertNode(node, parent)`: record the node and its
intended parent (id `0` = root) on the side list; the live tree is not
touched. -/
def reserveInsertNode (d : TaskData) (pid : Nat) (st : TreeState) : TreeState :=
  { st with reserve := st.reserve ++ [(d, pid)] }

/-- Drain loop of `FamilyTree::insertReservedNodes()`: insert each reserved
node (head first) with `insertNode`. -/
def flushReserve : List (TaskData × Nat) → Fam → Fam
  | [], f => f
  | (d, p) :: rest, f => flushReserve rest (insertAt d p f)

/-- Source `FamilyTree::insertReservedNodes()` on the scheduler state. -/
def insertReservedNodes (st : TreeState) : TreeState :=
  { st with forest := flushReserve st.reserve st.forest, reserve := [] }

/-- Source `FamilyTree::insertNode` on the scheduler state. -/
def insertNodeSt (d : TaskData) (pid : Nat) (st : TreeState) : TreeState :=
  { st with forest := insertAt d pid st.forest }

/-- A public `Task` operation by node id on the scheduler state. -/
def applyAtSt (x : Nat) (g : TaskData → TaskData) (incl : Bool) (st : TreeState) :
    TreeState :=
  { st with forest := applyAt x g incl st.forest }

/-- Source `TaskTree::postMessage(m, target)`: enqueue on the targeted queue. -/
def postMessage (m tgt : Nat) (st : TreeState) : TreeState :=
  { st with msgs := st.msgs ++ [(m, tgt)] }

/-- Source `TaskTree::postBroadcastMessage(m, top)`: enqueue on the broadcast
queue with the recorded subtree root. -/
def postBroadcastMessage (m tgt : Nat) (st : TreeState) : TreeState :=
  { st with bmsgs := st.bmsgs ++ [(m, tgt)] }

/-- Source `TaskTree::undelivered()`. -/
def undelivered (st : TreeState) : Nat := st.msgs.length
/-- Source `TaskTree::undeliveredBroadcast()`. -/
def undeliveredBroadcast (st : TreeState) : Nat := st.bmsgs.length

/-- Observable events of one scheduler `pump`. -/
inductive Ev where
  | recv (m tgt : Nat) : Ev
  | hook (h : THook) (id : Nat) : Ev
deriving DecidableEq, Repr

/-- Subtree (plus trailing sibling chain) of the node with id `x`, the way
`FamilyTree::callback(f, start)` reaches nodes from `start`: the traversal
visits `start`, its children, and then continues along `start`'s `_right`
siblings. -/
def locate (x : Nat) : Fam → Option Fam
  | Fam.nil => none
  | Fam.node d l r =>
    if d.id = x then some (Fam.node d l r)
    else match locate x l with
         | some t => some t
         | none => locate x r

/-- Recipients of one queued broadcast message, in `callback` order
(target id `0` = root: the root's own `onReceive` runs, then the forest). -/
def bcastEvs (f : Fam) (m tgt : Nat) : List Ev :=
  if tgt = 0 then (0 :: preorder f).map (fun i => Ev.recv m i)
  else match locate tgt f with
       | some t => (preorder t).map (fun i => Ev.recv m i)
       | none => []

/-- Source `TaskTree::deliverMessage()` event trace: all queued broadcast messages
(each to its recorded subtree) in FIFO order, then all queued targeted
messages (`msg.target->onReceive(msg)`, no tree search) in FIFO order. -/
def deliverEvs (st : TreeState) : List Ev :=
  (st.bmsgs.flatMap (fun p => bcastEvs st.forest p.fst p.snd)) ++
  (st.msgs.map (fun p => Ev.recv p.fst p.snd))

/-- Hook events of the `pump` traversal over a chain. -/
def pumpEvsF : Fam → List Ev
  | Fam.nil => []
  | Fam.node d l r =>
    (pumpTaskEvs d).map (fun h => Ev.hook h d.id) ++ pumpEvsF l ++ pumpEvsF r

/-- Hook events of the whole `pump` traversal (root first, then forest). -/
def pumpAllEvs (st : TreeState) : List Ev :=
  (pumpTaskEvs st.rootTask).map (fun h => Ev.hook h 0) ++ pumpEvsF st.forest

/-- Source `TaskTree::pump(delta)` (gob_task.hpp lines 217-227): a no-op when
globally paused; otherwise deliver queued messages, step every task's state
machine, flush the reservation list, and unlink every task whose Kill flag
is set.  Returns the new state and the event trace. -/
def schedPump (st : TreeState) : TreeState × List Ev :=
  if st.pauseG then (st, [])
  else
    ({ forest := removeIf isKillD (flushReserve st.reserve (mapAll pumpTask st.forest)),
       rootTask := pumpTask st.rootTask,
       reserve := [], msgs := [], bmsgs := [], pauseG := st.pauseG },
     deliverEvs st ++ pumpAllEvs st)

/-- Iterate: `n` consecutive `pump` calls. -/
def pumpN : Nat → TreeState → TreeState
  | 0, st => st
  | n + 1, st => pumpN n (schedPump st).fst

/-! ## Operation sequences over the tree (for the sort invariant) -/

/-- One public structural operation of `FamilyTree`. -/
inductive TOp where
  | ins (d : TaskData) (pid : Nat) : TOp
  | rsv (d : TaskData) (pid : Nat) : TOp
  | flush : TOp
  | rem (g : TaskData → Bool) : TOp

/-- Apply one structural operation. -/
def stepOp : TOp → TreeState → TreeState
  | TOp.ins d pid, st => insertNodeSt d pid st
  | TOp.rsv d pid, st => reserveInsertNode d pid st
  | TOp.flush, st => insertReservedNodes st
  | TOp.rem g, st => { st with forest := removeIf g st.forest }

/-- Apply a sequence of structural operations. -/
def runOps : List TOp → TreeState → TreeState
  | [], st => st
  | op :: rest, st => runOps rest (stepOp op st)

/-- Side condition on a single operation: a `removeNode_if` call may only
remove nodes that have no children at that point. -/
def okOp1 : TOp → TreeState → Bool
  | TOp.rem g, st => leafPred g st.forest
  | _, _ => true

/-- Side condition of the amended sort invariant: every `removeNode_if` call
in the sequence only removes nodes that have no children at that point. -/
def opsOkB : List TOp → TreeState → Bool
  | [], _ => true
  | op :: rest, st => okOp1 op st && opsOkB rest (stepOp op st)

/-! ## Scene layer (`SceneTask` / `SceneManageTask`, gob_scene.hpp/.cpp)

The model covers the documented driving discipline: the scheduler is pumped
once per frame, so reserved nodes are flushed into the live tree before the
next scene operation touches them (pause/release on a node still sitting on
the reservation side list would follow the repurposed `_left`/`_right`
scratch pointers in the C++ and is out of scope). -/

/-- Scene-hook events (`onEnterCurrentScene(pre, resume)`,
`onLeaveCurrentScene(cur)`, `onChangeScene(to, from)`), by scene id. -/
inductive SEvent where
  | enter (sid pre : Nat) (resume : Bool) : SEvent
  | leave (sid cur : Nat) : SEvent
  | change (toS fr : Nat) : SEvent
deriving DecidableEq, Repr

/-- State of a `SceneManageTask` together with its `TaskTree`: the manager's node id,
the explicit scene stack (`(task id, scene id)` pairs, head = `back()` =
current scene) and the chronological scene-hook trace. -/
structure SceneState where
  tree : TreeState
  mgrId : Nat
  stack : List (Nat × Nat)
  trace : List SEvent
deriving DecidableEq, Repr

/-- Source `SceneManageTask::push(st)` (gob_renderer.hpp embedding of gob_scene.cpp,
lines 154-176): if a scene is current it is paused including children and
told it leaves (receiving the incoming scene's id); the new scene is
deferred-inserted as the manager's child, pushed, marked owned, and told it
entered (resume=false) with the previous scene's id (0 if none). -/
def pushScene (sc : TaskData) (s : SceneState) : SceneState :=
  match s.stack with
  | [] =>
    { s with
      tree := reserveInsertNode { sc with owned := true } s.mgrId s.tree,
      stack := (sc.id, sc.sceneId) :: s.stack,
      trace := s.trace ++ [SEvent.enter sc.sceneId 0 false,
                           SEvent.change sc.sceneId 0] }
  | (curId, curSid) :: _ =>
    { s with
      tree := reserveInsertNode { sc with owned := true } s.mgrId
                (applyAtSt curId (pauseTask true) true s.tree),
      stack := (sc.id, sc.sceneId) :: s.stack,
      trace := s.trace ++ [SEvent.leave curSid sc.sceneId,
                           SEvent.enter sc.sceneId curSid false,
                           SEvent.change sc.sceneId curSid] }

/-- Source `SceneManageTask::pop()` (gob_renderer.hpp embedding of gob_scene.cpp,
lines 178-209): no-op on an empty stack; otherwise the current scene is told
it leaves (receiving the id of the scene beneath, 0 if none), released
including children, disowned and popped; the scene beneath, if any, is
resumed including children and told it entered (resume=true) with the popped
scene's id. -/
def popScene (s : SceneState) : SceneState :=
  match s.stack with
  | [] => s
  | (preId, preSid) :: rest =>
    match rest with
    | [] =>
      { s with
        tree := applyAtSt preId (fun d => { d with owned := false }) false
                  (applyAtSt preId releaseTask true s.tree),
        stack := rest,
        trace := s.trace ++ [SEvent.leave preSid 0, SEvent.change 0 preSid] }
    | (curId, curSid) :: _ =>
      { s with
        tree := applyAtSt curId (pauseTask false) true
                  (applyAtSt preId (fun d => { d with owned := false }) false
                    (applyAtSt preId releaseTask true s.tree)),
        stack := rest,
        trace := s.trace ++ [SEvent.leave preSid curSid,
                             SEvent.enter curSid preSid true,
                             SEvent.change curSid preSid] }

/-- One frame of the external driver: a scheduler `pump` (scene hooks fire
only from push/pop, so the scene trace is unchanged). -/
def scenePump (s : SceneState) : SceneState :=
  { s with tree := (schedPump s.tree).fst }

/-- A fresh `SceneTask(sid, pri)` with default lifecycle hooks. -/
def mkScene (id : Nat) (pri : Int) (sid : Nat) : TaskData :=
  { mkTask id pri true true with sceneId := sid }

/-- Is this event an `onEnterCurrentScene` of the given scene? -/
def isEnterFor (sid : Nat) : SEvent → Bool
  | SEvent.enter s _ _ => s == sid
  | _ => false

/-! ## Concrete scenarios -/

/-- Lifecycle scenario: a fresh `Task(priority=5)` whose hooks report
completion immediately. -/
def c3t : TaskData := mkTask 1 5 true true
/-- The task registered in a fresh scheduler. -/
def c3s1 : TreeState := insertNodeSt c3t 0 emptyTree
/-- After one `Task::pump` (initialize hook returns true). -/
def c3s2 : TreeState := applyAtSt 1 pumpTask false c3s1
/-- After `release()`. -/
def c3s3 : TreeState := applyAtSt 1 releaseTask false c3s2
/-- After one more `Task::pump` (release hook returns true). -/
def c3s4 : TreeState := applyAtSt 1 pumpTask false c3s3
/-- After the next scheduler `pump`. -/
def c3s5 : TreeState := (schedPump c3s4).fst

/-- Scene-stack scenario: the manager (`SceneManageTask` constructor
reserve-inserts it under the root; its `onRelease` is the overridden
polling one, modelled as not-yet-done). -/
def c8mgr : TaskData := mkTask 100 0 true false
/-- Manager constructed on a fresh tree. -/
def c8s0 : SceneState :=
  { tree := reserveInsertNode c8mgr 0 emptyTree, mgrId := 100,
    stack := [], trace := [] }
/-- Scene A. -/
def c8A : TaskData := mkScene 1 1 10
/-- Scene B. -/
def c8B : TaskData := mkScene 2 2 20
/-- Scene C. -/
def c8C : TaskData := mkScene 3 3 30
/-- A child task living under scene C. -/
def c8D : TaskData := mkTask 4 1 true true
/-- Frame: manager flushed into the tree. -/
def c8s1 : SceneState := scenePump c8s0
/-- push A. -/
def c8s2 : SceneState := pushScene c8A c8s1
/-- Frame. -/
def c8s3 : SceneState := scenePump c8s2
/-- push B. -/
def c8s4 : SceneState := pushScene c8B c8s3
/-- Frame. -/
def c8s5 : SceneState := scenePump c8s4
/-- push C. -/
def c8s6 : SceneState := pushScene c8C c8s5
/-- Frame. -/
def c8s7 : SceneState := scenePump c8s6
/-- A task inserted below the current scene C. -/
def c8s8 : SceneState := { c8s7 with tree := insertNodeSt c8D 3 c8s7.tree }
/-- First pop. -/
def c8s9 : SceneState := popScene c8s8
/-- Second pop. -/
def c8s10 : SceneState := popScene c8s9
/-- The scene-hook events emitted by the two pops. -/
def c8popEvs : List SEvent := c8s10.trace.drop c8s8.trace.length

/-- Does every node of the chain satisfy the predicate? -/
def allB (q : TaskData → Bool) : Fam → Bool
  | Fam.nil => true
  | Fam.node d l r => q d && allB q l && allB q r

/-- The Kill bit of every node's status, in preorder. -/
def killBits : Fam → List Nat
  | Fam.nil => []
  | Fam.node d l r => (d.status &&& S_KILL) :: (killBits l ++ killBits r)

/-! # Theorems -/

/-! ## Status-word facts -/

theorem reach_mem {s : Nat} (h : ReachableStatus s) : s ∈ goodStatusList := by
  induction h with
  | start => decide
  | doInitialize _ ih => fin_cases ih <;> decide
  | doRelease _ ih => fin_cases ih <;> decide
  | doRestart _ ih => fin_cases ih <;> decide
  | doKill _ ih => fin_cases ih <;> decide
  | doPause b _ ih => cases b <;> (fin_cases ih <;> decide)
  | doPump rI rR _ ih => cases rI <;> cases rR <;> (fin_cases ih <;> decide)

theorem flag_lor_phase (s c : Nat) :
    (((s &&& MASK_FLAG) ||| c) &&& MASK_STATUS) = c &&& MASK_STATUS := by
  rw [Nat.and_distrib_right, Nat.and_assoc]
  have h1 : (MASK_FLAG &&& MASK_STATUS) = 0 := by decide
  rw [h1, Nat.and_zero, Nat.zero_or]

theorem release_pause_bit (s : Nat) : (releaseS s &&& S_PAUSE) = 0 := by
  unfold releaseS
  rw [Nat.and_distrib_right, Nat.and_assoc]
  have h1 : (S_KILL &&& S_PAUSE) = 0 := by decide
  have h2 : (S_REL &&& S_PAUSE) = 0 := by decide
  rw [h1, h2, Nat.and_zero, Nat.or_zero]

theorem release_kill_bit (s : Nat) : (releaseS s &&& S_KILL) = s &&& S_KILL := by
  unfold releaseS
  rw [Nat.and_distrib_right, Nat.and_assoc]
  have h1 : (S_KILL &&& S_KILL) = S_KILL := by decide
  have h2 : (S_REL &&& S_KILL) = 0 := by decide
  rw [h1, h2, Nat.or_zero]

theorem release_task_pause (d : TaskData) : isPauseB (releaseTask d).status = false := by
  show ((releaseS d.status &&& S_PAUSE) != 0) = false
  rw [release_pause_bit]
  rfl

theorem release_task_kill (d : TaskData) :
    ((releaseTask d).status &&& S_KILL) = d.status &&& S_KILL :=
  release_kill_bit d.status

theorem allB_release_pause (t : Fam) :
    allB (fun d => !isPauseB d.status) (mapAll releaseTask t) = true := by
  induction t with
  | nil => rfl
  | node d l r ihl ihr => simp [mapAll, allB, release_task_pause, ihl, ihr]

theorem killBits_release (t : Fam) : killBits (mapAll releaseTask t) = killBits t := by
  induction t with
  | nil => rfl
  | node d l r ihl ihr => simp [mapAll, killBits, release_task_kill, ihl, ihr]

theorem pump_release_done (s : Nat) (rI : Bool) (hs : (s &&& MASK_STATUS) = S_REL)
    (hk : isKillB s = false) : pumpS rI true s = S_KILL := by
  simp [pumpS, taskPumpP, hs, hk, S_REL, S_EXEC, S_RESTART, S_INIT]

/-! ## Claim C1 -/

/-- C1 (amended): every reachable status word splits cleanly into
non-overlapping phase and flag parts, and has exactly one phase bit set
except after the pump in which the Release-phase release hook signals
completion, which writes `_status = Status::Kill` — a word with zero phase
bits (and the Kill flag set). -/
theorem c1_phase_flag_invariant (s : Nat) (h : ReachableStatus s) :
    (onePhaseB s = true ∨ ((s &&& MASK_STATUS) = 0 ∧ isKillB s = true)) ∧
    ((s &&& MASK_STATUS) ||| (s &&& MASK_FLAG)) = s ∧
    (MASK_STATUS &&& MASK_FLAG) = 0 := by
  have hm := reach_mem h
  fin_cases hm <;> decide

/-- C1 witness: the invariant instantiated at the freshly constructed
status `Status::Initialize`. -/
theorem c1_phase_flag_invariant_witness :
    (onePhaseB S_INIT = true ∨ ((S_INIT &&& MASK_STATUS) = 0 ∧ isKillB S_INIT = true)) ∧
    ((S_INIT &&& MASK_STATUS) ||| (S_INIT &&& MASK_FLAG)) = S_INIT ∧
    (MASK_STATUS &&& MASK_FLAG) = 0 :=
  c1_phase_flag_invariant S_INIT ReachableStatus.start

/-- C1 counterexample: after `release()` on a fresh task and one pump whose
release hook signals completion (a reachable state), the status word is
`Status::Kill` alone — no phase bit is set, refuting "exactly one phase bit
... still holds after a pump in which the Release-phase release hook signals
completion". -/
theorem c1_counterexample :
    ReachableStatus (pumpS true true (releaseS S_INIT)) ∧
    onePhaseB (pumpS true true (releaseS S_INIT)) = false :=
  ⟨ReachableStatus.doPump true true (ReachableStatus.doRelease ReachableStatus.start),
   by decide⟩

/-! ## Claim C4 -/

/-- C4: a task in the Restart phase (not killed) whose release hook signals
completion during `Task::pump` is cleared to Initialize and its initialize
hook is invoked within the same pump call (the hook trace is exactly
[onRelease, onInitialize]); when the initialize hook also signals completion
the resulting phase is Execute — all within that one pump. -/
theorem c4_restart_fallthrough (s : Nat) (p : Bool)
    (h1 : (s &&& MASK_STATUS) = S_RESTART) (h2 : isKillB s = false) :
    ((taskPumpP true true p s).fst &&& MASK_STATUS) = S_EXEC ∧
    (taskPumpP true true p s).snd = [THook.rel, THook.init] := by
  have hpump : taskPumpP true true p s =
      ((((s &&& MASK_FLAG) ||| S_INIT) &&& MASK_FLAG) ||| S_EXEC,
       [THook.rel, THook.init]) := by
    simp [taskPumpP, h1, h2, S_RESTART, S_EXEC, S_INIT, S_REL]
  rw [hpump]
  refine ⟨?_, rfl⟩
  calc ((((s &&& MASK_FLAG) ||| S_INIT) &&& MASK_FLAG) ||| S_EXEC) &&& MASK_STATUS
      = S_EXEC &&& MASK_STATUS := flag_lor_phase _ S_EXEC
    _ = S_EXEC := by decide

/-- C4 witness: the pure Restart status `Status::Restart`. -/
theorem c4_restart_fallthrough_witness :
    ((taskPumpP true true false S_RESTART).fst &&& MASK_STATUS) = S_EXEC ∧
    (taskPumpP true true false S_RESTART).snd = [THook.rel, THook.init] :=
  c4_restart_fallthrough S_RESTART false (by decide) (by decide)

/-! ## Claim C10 -/

/-- C10: `release()` keeps the Kill bit (and nothing else of the old word)
but unconditionally clears the Pause flag — `isPause()` is false afterwards
even for a previously paused task; with `includeChildren` the same holds for
every descendant (the recursion applies the same formula to the whole child
subtree); and a Release phase completed by `pump` (which writes
`Status::Kill`) also leaves the Pause flag cleared. -/
theorem c10_release_clears_pause (s s2 : Nat) (t : Fam) (rI : Bool)
    (hs : (s2 &&& MASK_STATUS) = S_REL) (hk : isKillB s2 = false) :
    isPauseB (releaseS s) = false ∧
    (releaseS s &&& S_KILL) = s &&& S_KILL ∧
    isPauseB (pumpS rI true s2) = false ∧
    allB (fun d => !isPauseB d.status) (mapAll releaseTask t) = true ∧
    killBits (mapAll releaseTask t) = killBits t := by
  refine ⟨?_, release_kill_bit s, ?_, allB_release_pause t, killBits_release t⟩
  · show ((releaseS s &&& S_PAUSE) != 0) = false
    rw [release_pause_bit]
    rfl
  · rw [pump_release_done s2 rI hs hk]
    decide

/-- C10 witness: a paused executing task for the release part, the pure
Release status for the pump part, and a one-node tree of a paused task for
the `includeChildren` part. -/
theorem c10_release_clears_pause_witness :
    isPauseB (releaseS 0x80000010) = false ∧
    (releaseS 0x80000010 &&& S_KILL) = 0x80000010 &&& S_KILL ∧
    isPauseB (pumpS true true S_REL) = false ∧
    allB (fun d => !isPauseB d.status)
      (mapAll releaseTask
        (Fam.node { mkTask 1 1 true true with status := 0x80000010 } Fam.nil Fam.nil)) = true ∧
    killBits (mapAll releaseTask
        (Fam.node { mkTask 1 1 true true with status := 0x80000010 } Fam.nil Fam.nil)) =
      killBits (Fam.node { mkTask 1 1 true true with status := 0x80000010 } Fam.nil Fam.nil) :=
  c10_release_clears_pause 0x80000010 S_REL
    (Fam.node { mkTask 1 1 true true with status := 0x80000010 } Fam.nil Fam.nil)
    true (by decide) (by decide)

/-! ## Claim C5 -/

theorem schedPump_paused {st : TreeState} (h : st.pauseG = true) :
    schedPump st = (st, []) := by
  simp [schedPump, h]

theorem pumpN_paused (n : Nat) (st : TreeState) (h : st.pauseG = true) :
    pumpN n st = st := by
  induction n with
  | zero => rfl
  | succ n ih =>
    show pumpN n (schedPump st).fst = st
    rw [schedPump_paused h]
    exact ih

/-- C5: with the scheduler globally paused, any number of consecutive `pump`
calls is a complete no-op: the whole state — every task's status (forest and
root), both message queues' pending counts, the tree structure and the
reservation list — is unchanged. -/
theorem c5_global_pause (st : TreeState) (n : Nat) (h : st.pauseG = true) :
    pumpN n st = st ∧
    (pumpN n st).forest = st.forest ∧
    (pumpN n st).rootTask = st.rootTask ∧
    undelivered (pumpN n st) = undelivered st ∧
    undeliveredBroadcast (pumpN n st) = undeliveredBroadcast st ∧
    (pumpN n st).reserve = st.reserve := by
  rw [pumpN_paused n st h]
  exact ⟨rfl, rfl, rfl, rfl, rfl, rfl⟩

/-- C5 witness: three pumps on a paused scheduler holding one task and one
queued message. -/
theorem c5_global_pause_witness :
    pumpN 3 { insertNodeSt (mkTask 1 5 true true) 0
                (postMessage 9 1 emptyTree) with pauseG := true } =
      { insertNodeSt (mkTask 1 5 true true) 0
          (postMessage 9 1 emptyTree) with pauseG := true } ∧
    (pumpN 3 { insertNodeSt (mkTask 1 5 true true) 0
                 (postMessage 9 1 emptyTree) with pauseG := true }).forest =
      { insertNodeSt (mkTask 1 5 true true) 0
          (postMessage 9 1 emptyTree) with pauseG := true }.forest ∧
    (pumpN 3 { insertNodeSt (mkTask 1 5 true true) 0
                 (postMessage 9 1 emptyTree) with pauseG := true }).rootTask =
      { insertNodeSt (mkTask 1 5 true true) 0
          (postMessage 9 1 emptyTree) with pauseG := true }.rootTask ∧
    undelivered (pumpN 3 { insertNodeSt (mkTask 1 5 true true) 0
                             (postMessage 9 1 emptyTree) with pauseG := true }) =
      undelivered { insertNodeSt (mkTask 1 5 true true) 0
                      (postMessage 9 1 emptyTree) with pauseG := true } ∧
    undeliveredBroadcast (pumpN 3 { insertNodeSt (mkTask 1 5 true true) 0
                                      (postMessage 9 1 emptyTree) with pauseG := true }) =
      undeliveredBroadcast { insertNodeSt (mkTask 1 5 true true) 0
                               (postMessage 9 1 emptyTree) with pauseG := true } ∧
    (pumpN 3 { insertNodeSt (mkTask 1 5 true true) 0
                 (postMessage 9 1 emptyTree) with pauseG := true }).reserve =
      { insertNodeSt (mkTask 1 5 true true) 0
          (postMessage 9 1 emptyTree) with pauseG := true }.reserve :=
  c5_global_pause
    { insertNodeSt (mkTask 1 5 true true) 0 (postMessage 9 1 emptyTree) with
        pauseG := true } 3 rfl

/-! ## Claim C6 -/

/-- C6: posting `m1` then `m2` to a target before a pump, that pump's event
trace is: all queued broadcast deliveries first, then the targeted queue in
FIFO order ending with `m1` and then `m2`, and only then the pump traversal's
hook events (the frame's execute hooks among them); both queues are empty
afterwards. -/
theorem c6_message_fifo (st : TreeState) (m1 m2 t : Nat) (h : st.pauseG = false) :
    (schedPump (postMessage m2 t (postMessage m1 t st))).snd =
      st.bmsgs.flatMap (fun p => bcastEvs st.forest p.fst p.snd) ++
      st.msgs.map (fun p => Ev.recv p.fst p.snd) ++
      [Ev.recv m1 t, Ev.recv m2 t] ++ pumpAllEvs st ∧
    undelivered (schedPump (postMessage m2 t (postMessage m1 t st))).fst = 0 ∧
    undeliveredBroadcast (schedPump (postMessage m2 t (postMessage m1 t st))).fst = 0 := by
  refine ⟨?_, ?_, ?_⟩
  · simp [schedPump, postMessage, h, deliverEvs, pumpAllEvs]
  · simp [schedPump, postMessage, h, undelivered]
  · simp [schedPump, postMessage, h, undeliveredBroadcast]

/-- C6 witness: two messages posted to task 1 of a fresh scheduler. -/
theorem c6_message_fifo_witness :
    (schedPump (postMessage 8 1 (postMessage 7 1 emptyTree))).snd =
      emptyTree.bmsgs.flatMap (fun p => bcastEvs emptyTree.forest p.fst p.snd) ++
      emptyTree.msgs.map (fun p => Ev.recv p.fst p.snd) ++
      [Ev.recv 7 1, Ev.recv 8 1] ++ pumpAllEvs emptyTree ∧
    undelivered (schedPump (postMessage 8 1 (postMessage 7 1 emptyTree))).fst = 0 ∧
    undeliveredBroadcast (schedPump (postMessage 8 1 (postMessage 7 1 emptyTree))).fst = 0 :=
  c6_message_fifo emptyTree 7 8 1 rfl

/-! ## Claim C3 -/

/-- C3: a fresh `Task(priority=5)` starts in the Initialize phase; one
`Task::pump` with an initialize hook returning true moves it to Execute;
after `release()`, one `Task::pump` with a release hook returning true sets
the Kill flag; the next scheduler `pump` reduces `size()` by exactly one and
the node is no longer reachable via traversal. -/
theorem c3_lifecycle :
    statusOf 1 c3s1.forest = some S_INIT ∧ isInitializeB S_INIT = true ∧
    statusOf 1 c3s2.forest = some S_EXEC ∧ isExecuteB S_EXEC = true ∧
    statusOf 1 c3s3.forest = some S_REL ∧
    statusOf 1 c3s4.forest = some S_KILL ∧ isKillB S_KILL = true ∧
    sizeF c3s4.forest = 1 ∧ sizeF c3s5.forest = 0 ∧
    sizeF c3s4.forest = sizeF c3s5.forest + 1 ∧
    memF 1 c3s5.forest = false := by decide

/-! ## Claim C9 -/

/-- C9: `pop()` on a scene manager with an empty scene stack is a no-op —
no scene hook fires (the trace is unchanged) and the stack, the tree and
every task's status are left as they were. -/
theorem c9_pop_empty (s : SceneState) (h : s.stack = []) :
    popScene s = s ∧ (popScene s).tree = s.tree ∧
    (popScene s).stack = s.stack ∧ (popScene s).trace = s.trace := by
  have h0 : popScene s = s := by
    unfold popScene
    rw [h]
  rw [h0]
  exact ⟨rfl, rfl, rfl, rfl⟩

/-- C9 witness: the freshly constructed scene manager, whose stack is
empty. -/
theorem c9_pop_empty_witness :
    popScene c8s0 = c8s0 ∧ (popScene c8s0).tree = c8s0.tree ∧
    (popScene c8s0).stack = c8s0.stack ∧ (popScene c8s0).trace = c8s0.trace :=
  c9_pop_empty c8s0 rfl

/-! ## Claim C8 -/

/-- C8: pushing scenes A (id 10), B (id 20), C (id 30) with a frame pump
after each push, then popping twice, leaves A as the current (last stacked)
scene; during the two pops A's enter hook fires exactly once, with
resume=true and the scene id of B (the scene just popped); each popped scene
(C with its child task, then B) ends released including its children and
disowned from the manager. -/
theorem c8_scene_stack :
    c8s10.stack = [(1, 10)] ∧
    c8popEvs = [SEvent.leave 30 20, SEvent.enter 20 30 true, SEvent.change 20 30,
                SEvent.leave 20 10, SEvent.enter 10 20 true, SEvent.change 10 20] ∧
    (c8popEvs.filter (isEnterFor 10)).length = 1 ∧
    SEvent.enter 10 20 true ∈ c8popEvs ∧
    statusOf 3 c8s10.tree.forest = some S_REL ∧
    statusOf 4 c8s10.tree.forest = some S_REL ∧
    ownedOf 3 c8s10.tree.forest = some false ∧
    statusOf 2 c8s10.tree.forest = some S_REL ∧
    ownedOf 2 c8s10.tree.forest = some false := by decide

/-! ## Insertion-sort development (for the sort invariant, claim C2) -/

theorem lb_trans {p q : Int} {l : List Int} (hpq : p ≤ q) (h : lbAll q l = true) :
    lbAll p l = true := by
  induction l with
  | nil => rfl
  | cons a t ih =>
    simp [lbAll] at h ⊢
    exact ⟨le_trans hpq h.1, ih h.2⟩

theorem lb_linsert {p q : Int} {l : List Int} (h : lbAll p l = true) (hpq : p ≤ q) :
    lbAll p (linsert q l) = true := by
  induction l with
  | nil => simp [linsert, lbAll, hpq]
  | cons a t ih =>
    simp [lbAll] at h
    by_cases hc : a < q
    · simp [linsert, hc, lbAll, h.1, ih h.2]
    · simp [linsert, hc, lbAll, hpq, h.1, h.2]

theorem nd_linsert {q : Int} {l : List Int} (h : ndList l = true) :
    ndList (linsert q l) = true := by
  induction l with
  | nil => simp [linsert, ndList, lbAll]
  | cons a t ih =>
    simp [ndList] at h
    by_cases hc : a < q
    · have h1 : lbAll a (linsert q t) = true := lb_linsert h.1 (le_of_lt hc)
      simp [linsert, hc, ndList, h1, ih h.2]
    · have hqa : q ≤ a := le_of_not_lt hc
      have h2 : lbAll q t = true := lb_trans hqa h.1
      simp [linsert, hc, ndList, lbAll, hqa, h2, h.1, h.2]

theorem lb_sublist {p : Int} {l1 l2 : List Int} (hs : l1.Sublist l2)
    (h : lbAll p l2 = true) : lbAll p l1 = true := by
  induction hs with
  | slnil => rfl
  | cons a _ ih =>
    simp [lbAll] at h
    exact ih h.2
  | cons₂ a _ ih =>
    simp [lbAll] at h ⊢
    exact ⟨h.1, ih h.2⟩

theorem nd_sublist {l1 l2 : List Int} (hs : l1.Sublist l2) (h : ndList l2 = true) :
    ndList l1 = true := by
  induction hs with
  | slnil => rfl
  | cons a _ ih =>
    simp [ndList] at h
    exact ih h.2
  | cons₂ a hs ih =>
    simp [ndList] at h ⊢
    exact ⟨lb_sublist hs h.1, ih h.2⟩

theorem spine_insertSorted (d : TaskData) (dl t : Fam) :
    spine (insertSorted d dl t) = linsert d.priority (spine t) := by
  induction t with
  | nil => simp [insertSorted, spine, linsert]
  | node e el er ihl ihr =>
    by_cases hc : e.priority < d.priority
    · simp [insertSorted, taskLt, hc, spine, linsert, ihr]
    · simp [insertSorted, taskLt, hc, spine, linsert]

theorem nd_sortChain (t : Fam) : ∀ acc : Fam, ndList (spine acc) = true →
    ndList (spine (sortChain t acc)) = true := by
  induction t with
  | nil => exact fun _ h => h
  | node d l r ihl ihr =>
    intro acc h
    show ndList (spine (sortChain r (insertSorted d l acc))) = true
    apply ihr
    rw [spine_insertSorted]
    exact nd_linsert h

theorem sorted_famSort (t : Fam) : sortedSpine (famSort t) = true :=
  nd_sortChain t Fam.nil rfl

theorem goodF_insertSorted {d : TaskData} {dl t : Fam} (h1 : sortedSpine dl = true)
    (h2 : goodF dl = true) (h3 : goodF t = true) :
    goodF (insertSorted d dl t) = true := by
  induction t with
  | nil => simp [insertSorted, goodF, h1, h2]
  | node e el er ihl ihr =>
    simp [goodF] at h3
    obtain ⟨⟨h3a, h3b⟩, h3c⟩ := h3
    by_cases hc : e.priority < d.priority
    · simp [insertSorted, taskLt, hc, goodF, h3a, h3b, ihr h3c]
    · simp [insertSorted, taskLt, hc, goodF, h1, h2, h3a, h3b, h3c]

theorem goodF_sortChain (t : Fam) : ∀ acc : Fam, goodF t = true → goodF acc = true →
    goodF (sortChain t acc) = true := by
  induction t with
  | nil => exact fun _ _ h2 => h2
  | node d l r ihl ihr =>
    intro acc h1 h2
    simp [goodF] at h1
    obtain ⟨⟨h1a, h1b⟩, h1c⟩ := h1
    show goodF (sortChain r (insertSorted d l acc)) = true
    exact ihr _ h1c (goodF_insertSorted h1a h1b h2)

theorem goodF_famSort {t : Fam} (h : goodF t = true) : goodF (famSort t) = true :=
  goodF_sortChain t Fam.nil h rfl

theorem sorted_insertTop (d : TaskData) (f : Fam) :
    sortedSpine (insertTop d f) = true := by
  cases f with
  | nil => simp [insertTop, sortedSpine, spine, ndList, lbAll]
  | node e el er => exact sorted_famSort _

theorem goodF_insertTop {d : TaskData} {f : Fam} (h : goodF f = true) :
    goodF (insertTop d f) = true := by
  cases f with
  | nil => simp [insertTop, goodF, sortedSpine, spine, ndList]
  | node e el er =>
    apply goodF_famSort
    simp [goodF, sortedSpine, spine, ndList]
    simp [goodF] at h
    exact h

theorem spine_insertUnder (d : TaskData) (p : Nat) (f : Fam) :
    spine (insertUnder d p f) = spine f := by
  induction f with
  | nil => rfl
  | node x l r ihl ihr =>
    by_cases hc : x.id = p
    · simp [insertUnder, hc, spine]
    · simp [insertUnder, hc, spine, ihr]

theorem sorted_insertUnder {d : TaskData} {p : Nat} {f : Fam}
    (h : sortedSpine f = true) : sortedSpine (insertUnder d p f) = true := by
  unfold sortedSpine
  rw [spine_insertUnder]
  exact h

theorem goodF_insertUnder {d : TaskData} {p : Nat} {f : Fam} (h : goodF f = true) :
    goodF (insertUnder d p f) = true := by
  induction f with
  | nil => rfl
  | node x l r ihl ihr =>
    simp [goodF] at h
    obtain ⟨⟨ha, hb⟩, hcg⟩ := h
    by_cases hc : x.id = p
    · simp [insertUnder, hc, goodF, sorted_insertTop, goodF_insertTop hb, hcg]
    · have hsl : sortedSpine (insertUnder d p l) = true := sorted_insertUnder ha
      simp [insertUnder, hc, goodF, hsl, ihl hb, ihr hcg]

theorem sorted_insertAt {d : TaskData} {p : Nat} {f : Fam}
    (h : sortedSpine f = true) : sortedSpine (insertAt d p f) = true := by
  unfold insertAt
  by_cases hc : p = 0
  · simp [hc, sorted_insertTop]
  · simp [hc, sorted_insertUnder h]

theorem goodF_insertAt {d : TaskData} {p : Nat} {f : Fam} (h : goodF f = true) :
    goodF (insertAt d p f) = true := by
  unfold insertAt
  by_cases hc : p = 0
  · simp [hc, goodF_insertTop h]
  · simp [hc, goodF_insertUnder h]

theorem good_flush (rs : List (TaskData × Nat)) : ∀ f : Fam,
    sortedSpine f = true → goodF f = true →
    sortedSpine (flushReserve rs f) = true ∧ goodF (flushReserve rs f) = true := by
  induction rs with
  | nil => exact fun f h1 h2 => ⟨h1, h2⟩
  | cons e rest ih =>
    intro f h1 h2
    exact ih _ (sorted_insertAt h1) (goodF_insertAt h2)

theorem spine_removeIf {g : TaskData → Bool} {t : Fam} (h : leafPred g t = true) :
    (spine (removeIf g t)).Sublist (spine t) := by
  induction t with
  | nil => simp [removeIf]
  | node d l r ihl ihr =>
    simp [leafPred] at h
    obtain ⟨⟨hor, hl⟩, hr⟩ := h
    by_cases hg : g d
    · have hnil : l = Fam.nil := by
        rcases hor with h0 | h0
        · simp [hg] at h0
        · exact h0
      subst hnil
      simp [removeIf, hg, spine]
      exact (ihr hr).trans (List.sublist_cons_self _ _)
    · simp [removeIf, hg, spine]
      exact ihr hr

theorem sorted_removeIf {g : TaskData → Bool} {t : Fam} (hlp : leafPred g t = true)
    (h : sortedSpine t = true) : sortedSpine (removeIf g t) = true :=
  nd_sublist (spine_removeIf hlp) h

theorem goodF_removeIf {g : TaskData → Bool} {t : Fam} (hlp : leafPred g t = true)
    (h : goodF t = true) : goodF (removeIf g t) = true := by
  induction t with
  | nil => rfl
  | node d l r ihl ihr =>
    simp [leafPred] at hlp
    obtain ⟨⟨hor, hl⟩, hr⟩ := hlp
    simp [goodF] at h
    obtain ⟨⟨ha, hb⟩, hc⟩ := h
    by_cases hg : g d
    · have hnil : l = Fam.nil := by
        rcases hor with h0 | h0
        · simp [hg] at h0
        · exact h0
      subst hnil
      simp [removeIf, hg]
      exact ihr hr hc
    · simp [removeIf, hg, goodF]
      exact ⟨⟨sorted_removeIf hl ha, ihl hl hb⟩, ihr hr hc⟩

theorem stepOp_good (op : TOp) (st : TreeState) (hok : okOp1 op st = true)
    (h1 : sortedSpine st.forest = true) (h2 : goodF st.forest = true) :
    sortedSpine (stepOp op st).forest = true ∧ goodF (stepOp op st).forest = true := by
  cases op with
  | ins d pid => exact ⟨sorted_insertAt h1, goodF_insertAt h2⟩
  | rsv d pid => exact ⟨h1, h2⟩
  | flush => exact good_flush st.reserve st.forest h1 h2
  | rem g =>
    have hok2 : leafPred g st.forest = true := hok
    exact ⟨sorted_removeIf hok2 h1, goodF_removeIf hok2 h2⟩

/-! ## Claim C2 -/

/-- C2 (amended): over any sequence of `insertNode`, `reserveInsertNode` /
`insertReservedNodes` and `removeNode_if` calls in which every removed node
is childless at the moment of removal, every parent's child chain — read
left-to-right along the `_right` links — stays ordered by non-decreasing
priority.  (When a removed node has children, the splice re-sorts the
spliced segment only, not its position relative to earlier siblings; see the
counterexample.) -/
theorem c2_sort_invariant (ops : List TOp) (st : TreeState)
    (h1 : sortedSpine st.forest = true) (h2 : goodF st.forest = true)
    (h3 : opsOkB ops st = true) :
    sortedSpine (runOps ops st).forest = true ∧
    goodF (runOps ops st).forest = true := by
  induction ops generalizing st with
  | nil => exact ⟨h1, h2⟩
  | cons op rest ih =>
    simp [opsOkB] at h3
    obtain ⟨ho, hrest⟩ := h3
    have hs := stepOp_good op st ho h1 h2
    exact ih (stepOp op st) hs.1 hs.2 hrest

/-- C2 witness: two root-level inserts (one deferred and flushed), an insert
below node 2, and a removal of the childless node 1. -/
theorem c2_sort_invariant_witness :
    sortedSpine (runOps [TOp.ins (mkTask 1 1 true true) 0,
                         TOp.rsv (mkTask 2 5 true true) 0, TOp.flush,
                         TOp.ins (mkTask 3 0 true true) 2,
                         TOp.rem (fun d => d.id == 1)] emptyTree).forest = true ∧
    goodF (runOps [TOp.ins (mkTask 1 1 true true) 0,
                   TOp.rsv (mkTask 2 5 true true) 0, TOp.flush,
                   TOp.ins (mkTask 3 0 true true) 2,
                   TOp.rem (fun d => d.id == 1)] emptyTree).forest = true :=
  c2_sort_invariant
    [TOp.ins (mkTask 1 1 true true) 0,
     TOp.rsv (mkTask 2 5 true true) 0, TOp.flush,
     TOp.ins (mkTask 3 0 true true) 2,
     TOp.rem (fun d => d.id == 1)] emptyTree (by decide) (by decide) (by decide)

/-- C2 counterexample: insert A (priority 1) and B (priority 5) under the
root and C (priority 0) under B, then remove B with `removeNode_if`.  B's
child C is spliced into B's former position, leaving the root's child chain
with priorities [1, 0] — not non-decreasing — so the claimed invariant fails
for removals that splice children. -/
theorem c2_counterexample :
    sortedSpine (runOps [TOp.ins (mkTask 1 1 true true) 0,
                         TOp.ins (mkTask 2 5 true true) 0,
                         TOp.ins (mkTask 3 0 true true) 2,
                         TOp.rem (fun d => d.id == 2)] emptyTree).forest = false := by
  decide

/-! ## Membership development (for reservation isolation, claim C7) -/

theorem mem_insertSorted {x : Nat} {d : TaskData} {dl t : Fam} :
    memF x (insertSorted d dl t) = true ↔
      (d.id = x ∨ memF x dl = true ∨ memF x t = true) := by
  induction t with
  | nil => simp [insertSorted, memF]
  | node e el er ihl ihr =>
    by_cases hc : e.priority < d.priority
    · simp [insertSorted, taskLt, hc, memF, ihr]
      tauto
    · simp [insertSorted, taskLt, hc, memF]
      tauto

theorem mem_sortChain {x : Nat} (t : Fam) : ∀ acc,
    memF x (sortChain t acc) = true ↔ (memF x t = true ∨ memF x acc = true) := by
  induction t with
  | nil => intro acc; simp [sortChain, memF]
  | node d l r ihl ihr =>
    intro acc
    show memF x (sortChain r (insertSorted d l acc)) = true ↔ _
    rw [ihr]
    simp [memF, mem_insertSorted]
    tauto

theorem mem_famSort {x : Nat} (t : Fam) : memF x (famSort t) = true ↔ memF x t = true := by
  unfold famSort
  rw [mem_sortChain]
  simp [memF]

theorem mem_insertTop {x : Nat} {d : TaskData} (f : Fam) :
    memF x (insertTop d f) = true ↔ (d.id = x ∨ memF x f = true) := by
  cases f with
  | nil => simp [insertTop, memF]
  | node e el er =>
    show memF x (famSort _) = true ↔ _
    rw [mem_famSort]
    simp [memF]

theorem mem_insertUnder_mono {y : Nat} {d : TaskData} {p : Nat} {f : Fam}
    (h : memF y f = true) : memF y (insertUnder d p f) = true := by
  induction f with
  | nil => exact h
  | node x l r ihl ihr =>
    simp [memF] at h
    by_cases hc : x.id = p
    · subst hc
      simp [insertUnder, memF, mem_insertTop]
      tauto
    · simp [insertUnder, hc, memF]
      rcases h with (h | h) | h
      · exact Or.inl (Or.inl h)
      · exact Or.inl (Or.inr (ihl h))
      · exact Or.inr (ihr h)

theorem mem_insertUnder_self {d : TaskData} {p : Nat} {f : Fam}
    (h : memF p f = true) : memF d.id (insertUnder d p f) = true := by
  induction f with
  | nil => simp [memF] at h
  | node x l r ihl ihr =>
    by_cases hc : x.id = p
    · subst hc
      simp [insertUnder, memF, mem_insertTop]
    · simp [memF] at h
      rcases h with (h | h) | h
      · exact absurd h hc
      · simp [insertUnder, hc, memF]
        exact Or.inl (Or.inr (ihl h))
      · simp [insertUnder, hc, memF]
        exact Or.inr (ihr h)

theorem mem_insertAt_mono {y : Nat} {d : TaskData} {p : Nat} {f : Fam}
    (h : memF y f = true) : memF y (insertAt d p f) = true := by
  unfold insertAt
  by_cases hc : p = 0
  · simp [hc, mem_insertTop, h]
  · rw [if_neg hc]
    exact mem_insertUnder_mono h

theorem mem_insertAt_self {d : TaskData} {p : Nat} {f : Fam}
    (h : p = 0 ∨ memF p f = true) : memF d.id (insertAt d p f) = true := by
  unfold insertAt
  by_cases hc : p = 0
  · simp [hc, mem_insertTop]
  · rw [if_neg hc]
    rcases h with h | h
    · exact absurd h hc
    · exact mem_insertUnder_self h

theorem mem_flush_mono {y : Nat} (rs : List (TaskData × Nat)) : ∀ f,
    memF y f = true → memF y (flushReserve rs f) = true := by
  induction rs with
  | nil => exact fun f h => h
  | cons e rest ih =>
    obtain ⟨d, p⟩ := e
    intro f h
    exact ih _ (mem_insertAt_mono h)

theorem mem_flush_last (d : TaskData) (p : Nat) (rs : List (TaskData × Nat)) :
    ∀ f, (p = 0 ∨ memF p f = true) →
    memF d.id (flushReserve (rs ++ [(d, p)]) f) = true := by
  induction rs with
  | nil =>
    intro f h
    show memF d.id (flushReserve [] (insertAt d p f)) = true
    exact mem_insertAt_self h
  | cons e rest ih =>
    obtain ⟨e1, e2⟩ := e
    intro f h
    show memF d.id (flushReserve (rest ++ [(d, p)]) (insertAt e1 e2 f)) = true
    apply ih
    rcases h with h | h
    · exact Or.inl h
    · exact Or.inr (mem_insertAt_mono h)

/-! ## Claim C7 -/

/-- C7: registering a node with `reserveInsertNode` (parent the root or any
node present in the tree) leaves the live tree untouched — `size()`,
traversal order and `exists()` are all unchanged — until
`insertReservedNodes` runs at the pump's maintenance step, after which the
reserved node is in the tree (traversable from the next pump onward). -/
theorem c7_reservation_isolation (st : TreeState) (d : TaskData) (p : Nat)
    (hp : p = 0 ∨ memF p st.forest = true) :
    (reserveInsertNode d p st).forest = st.forest ∧
    sizeF (reserveInsertNode d p st).forest = sizeF st.forest ∧
    preorder (reserveInsertNode d p st).forest = preorder st.forest ∧
    (∀ y, memF y (reserveInsertNode d p st).forest = memF y st.forest) ∧
    memF d.id (insertReservedNodes (reserveInsertNode d p st)).forest = true := by
  refine ⟨rfl, rfl, rfl, fun y => rfl, ?_⟩
  show memF d.id (flushReserve (st.reserve ++ [(d, p)]) st.forest) = true
  exact mem_flush_last d p st.reserve st.forest hp

/-- C7 witness: a node reserved below task 1 of the lifecycle scenario's
tree. -/
theorem c7_reservation_isolation_witness :
    (reserveInsertNode (mkTask 9 1 true true) 1 c3s1).forest = c3s1.forest ∧
    sizeF (reserveInsertNode (mkTask 9 1 true true) 1 c3s1).forest = sizeF c3s1.forest ∧
    preorder (reserveInsertNode (mkTask 9 1 true true) 1 c3s1).forest =
      preorder c3s1.forest ∧
    (∀ y, memF y (reserveInsertNode (mkTask 9 1 true true) 1 c3s1).forest =
      memF y c3s1.forest) ∧
    memF (mkTask 9 1 true true).id
      (insertReservedNodes (reserveInsertNode (mkTask 9 1 true true) 1 c3s1)).forest =
      true :=
  c7_reservation_isolation c3s1 (mkTask 9 1 true true) 1 (by decide)

end Goblib
